import Mathlib

/-!
Verification of the plonk SPH visualization code.

The numeric code is embedded over the rationals: each Python function on
floats or numpy arrays becomes a Lean function on `ℚ` (scalars) or
`List ℚ` (arrays), translated clause by clause from the source.
-/

/-- Embeds `density_from_smoothing_length` from `plonk/particles.py`:
`particleMass * (hfact/np.abs(smoothingLength))**3`. -/
def density_from_smoothing_length (smoothingLength particleMass hfact : ℚ) : ℚ :=
  particleMass * (hfact / |smoothingLength|) ^ 3

/-- Embeds the `Visualization._interpolation_weights` property from
`plonk/visualization/visualization.py`: if `density_weighted` it returns
`np.array(self._particle_mass / self._h ** 2)` (elementwise over the particle
arrays), otherwise `np.full_like(self._h, 1 / self._header['hfact'])`. -/
def interpolation_weights (density_weighted : Bool) (mass h : List ℚ) (hfact : ℚ) :
    List ℚ :=
  if density_weighted then List.zipWith (fun m hh => m / hh ^ 2) mass h
  else h.map (fun _ => 1 / hfact)

/-- Embeds `np.linspace(start, stop, num)` (default `endpoint=True`), the call
used in `Visualization._render_vector_matplotlib` to assign pixel coordinates:
value at index `i` is `start + i * (stop - start) / (num - 1)` for `num ≥ 2`,
and `start` when `num ≤ 1`. -/
def linspace (start stop : ℚ) (num i : ℕ) : ℚ :=
  if num ≤ 1 then start else start + i * (stop - start) / ((num : ℚ) - 1)

/-- Minimum of a nonempty collection given as head plus tail, as computed by
`numpy.min` over an axis in `Visualization._init_image_size`. -/
def listMin (x : ℚ) (xs : List ℚ) : ℚ := xs.foldl min x

/-- Maximum of a nonempty collection given as head plus tail, as computed by
`numpy.max` over an axis in `Visualization._init_image_size`. -/
def listMax (x : ℚ) (xs : List ℚ) : ℚ := xs.foldl max x

/-- Embeds `Visualization._init_image_size`: if an extent was supplied it is
only checked for having exactly 4 entries (`ValueError` otherwise) and is used
as is; else if a size `s` was supplied the extent is `(-s, s, -s, s)`; else the
extent is the min/max of the particle x and y coordinates (numpy raises on an
empty array). -/
def init_image_size (extent : Option (List ℚ)) (size : Option ℚ)
    (xyz : List (ℚ × ℚ)) : Except String (ℚ × ℚ × ℚ × ℚ) :=
  match extent with
  | some e =>
      if e.length ≠ 4 then .error "Extent must be like (xmin, xmax, ymin, ymax)"
      else .ok (e.getD 0 0, e.getD 1 0, e.getD 2 0, e.getD 3 0)
  | none =>
      match size with
      | some s => .ok (-s, s, -s, s)
      | none =>
          match xyz with
          | [] => .error "zero-size array to reduction operation"
          | p :: ps =>
              .ok (listMin p.1 (ps.map Prod.fst), listMax p.1 (ps.map Prod.fst),
                   listMin p.2 (ps.map Prod.snd), listMax p.2 (ps.map Prod.snd))

/-- Embeds `np.percentile(a, q)` with the default linear interpolation method:
with `s` the sorted data of length `n` and `k = q/100 * (n-1)`, the result is
`s[⌊k⌋] + (k - ⌊k⌋) * (s[⌊k⌋+1] - s[⌊k⌋])`. Sorting is modelled by insertion
sort, which agrees with `numpy.sort` on the sorted result. -/
def percentileLinear (xs : List ℚ) (q : ℚ) : ℚ :=
  let s := List.insertionSort (· ≤ ·) xs
  let k : ℚ := q / 100 * ((s.length : ℚ) - 1)
  let f : ℤ := ⌊k⌋
  let lo := s.getD f.toNat 0
  let hi := s.getD (f.toNat + 1) lo
  lo + (k - f) * (hi - lo)

/-- Embeds `get_extent_from_percentile` from `plonk/visualize/functions.py`:
percentile limits `(pl, pr) = ((100-percentile)/2, percentile + (100-percentile)/2)`
in each coordinate, optional recentering of each limit pair on a given value
(shifting both ends by `center - mean`), and optional symmetric edge padding by
`edge_factor` times the interval width. -/
def get_extent_from_percentile (snapx snapy : List ℚ) (percentile : ℚ)
    (x_center_on y_center_on : Option ℚ) (edge_factor : Option ℚ) :
    ℚ × ℚ × ℚ × ℚ :=
  let pl := (100 - percentile) / 2
  let pr := percentile + (100 - percentile) / 2
  let xlim0 := percentileLinear snapx pl
  let xlim1 := percentileLinear snapx pr
  let ylim0 := percentileLinear snapy pl
  let ylim1 := percentileLinear snapy pr
  let xshift := match x_center_on with
    | some c => c - (xlim0 + xlim1) / 2
    | none => 0
  let xlim0 := xlim0 + xshift
  let xlim1 := xlim1 + xshift
  let yshift := match y_center_on with
    | some c => c - (ylim0 + ylim1) / 2
    | none => 0
  let ylim0 := ylim0 + yshift
  let ylim1 := ylim1 + yshift
  match edge_factor with
  | some ef =>
      let dx := xlim1 - xlim0
      let dy := ylim1 - ylim0
      (xlim0 - dx * ef, xlim1 + dx * ef, ylim0 - dy * ef, ylim1 + dy * ef)
  | none => (xlim0, xlim1, ylim0, ylim1)

/-- Modelled from the spec: a particle as consumed by the Grid Interpolator,
whose implementation (`plonk.visualization.interpolation`) is not among the
source files; position projected to the image plane, smoothing length,
interpolation weight, and the scalar field value being rendered. -/
structure SPHParticle where
  x : ℚ
  y : ℚ
  h : ℚ
  weight : ℚ
  value : ℚ
deriving DecidableEq

/-- Modelled from the spec: pixel centers are placed at the midpoint of each
cell, `x_i = xmin + (i + 0.5) * (xmax - xmin) / npixx`. -/
def pixelCenter (xmin xmax : ℚ) (npix : ℕ) (i : ℕ) : ℚ :=
  xmin + ((i : ℚ) + 1 / 2) * (xmax - xmin) / (npix : ℚ)

/-- Modelled from the spec: squared normalized distance `q² = r²/h²` from a
particle to a pixel center, using the projected in-plane distance. -/
def qsq (p : SPHParticle) (px py : ℚ) : ℚ :=
  ((p.x - px) ^ 2 + (p.y - py) ^ 2) / p.h ^ 2

/-- Modelled from the spec: the contribution of one particle at one pixel
center. Particles with non-positive smoothing length are excluded; the kernel
is skipped when `q ≥ 2` (that is `q² ≥ 4`); otherwise the kernel weight
(a function `W` of `q²`, the kernel form being an implementation choice)
is multiplied by the particle's interpolation weight. -/
def contrib (W : ℚ → ℚ) (p : SPHParticle) (px py : ℚ) : ℚ :=
  if p.h ≤ 0 then 0
  else if 4 ≤ qsq p px py then 0
  else W (qsq p px py) * p.weight

/-- Modelled from the spec: the value accumulated at a pixel, the sum over
particles of contribution times field value. -/
def accumValue (W : ℚ → ℚ) (ps : List SPHParticle) (px py : ℚ) : ℚ :=
  (ps.map (fun p => contrib W p px py * p.value)).sum

/-- Modelled from the spec: the weight accumulated at a pixel when
normalizing, the sum over particles of the contributions themselves. -/
def accumWeight (W : ℚ → ℚ) (ps : List SPHParticle) (px py : ℚ) : ℚ :=
  (ps.map (fun p => contrib W p px py)).sum

/-- Modelled from the spec: `scalar_interpolation` at grid cell `(i, j)`.
Without normalization the cell holds the accumulated value; with
normalization it is divided by the accumulated weight, cells with zero
accumulated weight remaining zero. -/
def scalar_interpolation (W : ℚ → ℚ) (ps : List SPHParticle)
    (xmin xmax ymin ymax : ℚ) (npixx npixy : ℕ) (normalize : Bool)
    (i j : ℕ) : ℚ :=
  let px := pixelCenter xmin xmax npixx i
  let py := pixelCenter ymin ymax npixy j
  if normalize then
    if accumWeight W ps px py = 0 then 0
    else accumValue W ps px py / accumWeight W ps px py
  else accumValue W ps px py

/-- A concrete compact-support kernel as a function of `q²`, used to
instantiate the modelled interpolator on concrete inputs: positive and
decreasing on `q² < 4`, zero beyond. -/
def sampleKernel (s : ℚ) : ℚ := if s < 4 then (4 - s) ^ 3 else 0

/-- The special keyword arguments popped individually by
`Visualization.__init__` after the options groups have been scanned. -/
def specialKeys : List String :=
  ["extent", "size", "render_fraction_max", "position_angle", "inclination",
   "particle_type", "particle_types"]

/-- Embeds the options-group scan of `Visualization.__init__`: for each
options group (a list of field names, from the `PlotOptions` dataclasses),
every keyword argument whose key is a field of that group is popped. -/
def popGroupKeys (groups : List (List String)) (kwargs : List (String × ℚ)) :
    List (String × ℚ) :=
  groups.foldl (fun kw g => kw.filter (fun p => !(decide (p.1 ∈ g)))) kwargs

/-- Embeds the keyword-argument handling of `Visualization.__init__`: after
the options groups and the special keys are popped, each remaining key is
reported with a `UserWarning` message naming it, and initialization
continues. -/
def initWarnings (groups : List (List String)) (kwargs : List (String × ℚ)) :
    List String :=
  ((popGroupKeys groups kwargs).filter
      (fun p => !(decide (p.1 ∈ specialKeys)))).map
    (fun p => "Unknown keyword argument: " ++ p.1)

/-- Claim C9: `density_from_smoothing_length` is invariant under a sign flip
of the smoothing length, and its result is strictly positive whenever the
mass and `hfact` are positive and the smoothing length is nonzero. -/
theorem density_sign_flip_and_positive (m hf h : ℚ) (hh : h ≠ 0) :
    density_from_smoothing_length h m hf = density_from_smoothing_length (-h) m hf ∧
    (0 < m → 0 < hf → 0 < density_from_smoothing_length h m hf) := by
  constructor
  · simp [density_from_smoothing_length, abs_neg]
  · intro hm hhf
    have habs : 0 < |h| := abs_pos.mpr hh
    exact mul_pos hm (pow_pos (div_pos hhf habs) 3)

/-- Claim C9, witness: the theorem applied at mass 2, `hfact = 6/5`,
smoothing length `-3`. -/
theorem density_sign_flip_and_positive_witness :
    (-3 : ℚ) ≠ 0 ∧
    (density_from_smoothing_length (-3) 2 (6/5) =
        density_from_smoothing_length (-(-3)) 2 (6/5) ∧
      (0 < (2 : ℚ) → 0 < (6/5 : ℚ) →
        0 < density_from_smoothing_length (-3) 2 (6/5))) :=
  ⟨by norm_num, density_sign_flip_and_positive 2 (6/5) (-3) (by norm_num)⟩

/-- Claim C1, counterexample: with density-weighted rendering on, the weight
of a particle of mass 1 and smoothing length 2 under `hfact = 6/5` is
`mass/h² = 1/4`, which differs from `mass/density = 125/27` with the density
derived from the smoothing length. -/
theorem interpolation_weight_not_mass_over_density :
    (interpolation_weights true [1] [2] (6/5)).getD 0 0 ≠
      1 / density_from_smoothing_length 2 1 (6/5) := by
  norm_num [interpolation_weights, density_from_smoothing_length]

/-- Claim C1 (amended): for every particle, the interpolation weight is
`mass/h²` when density-weighted rendering is on and `1/hfact` when it is
off. -/
theorem interpolation_weights_formula (mass h : List ℚ) (hfact : ℚ) (i : ℕ)
    (him : i < mass.length) (hih : i < h.length) :
    (interpolation_weights true mass h hfact).getD i 0 =
        mass.getD i 0 / (h.getD i 0) ^ 2 ∧
    (interpolation_weights false mass h hfact).getD i 0 = 1 / hfact := by
  constructor
  · have hlen : i < (List.zipWith (fun m hh => m / hh ^ 2) mass h).length := by
      rw [List.length_zipWith]; omega
    rw [interpolation_weights, if_pos rfl, List.getD_eq_getElem _ _ hlen,
      List.getElem_zipWith, List.getD_eq_getElem _ _ him, List.getD_eq_getElem _ _ hih]
  · have hlen : i < (h.map (fun _ => 1 / hfact)).length := by
      rw [List.length_map]; omega
    rw [interpolation_weights, if_neg (by simp), List.getD_eq_getElem _ _ hlen,
      List.getElem_map]

/-- Claim C1, witness: the amended formula applied to the one-particle arrays
with mass 1, smoothing length 2, `hfact = 6/5`. -/
theorem interpolation_weights_formula_witness :
    (0 : ℕ) < ([1] : List ℚ).length ∧ (0 : ℕ) < ([2] : List ℚ).length ∧
    ((interpolation_weights true [1] [2] (6/5)).getD 0 0 =
        ([1] : List ℚ).getD 0 0 / (([2] : List ℚ).getD 0 0) ^ 2 ∧
      (interpolation_weights false [1] [2] (6/5)).getD 0 0 = 1 / (6/5)) :=
  ⟨by norm_num, by norm_num,
    interpolation_weights_formula [1] [2] (6/5) 0 (by norm_num) (by norm_num)⟩

/-- Claim C2, counterexample: with extent `(0, 1)` and 2 pixels, the
coordinate of pixel 0 produced by `np.linspace` is `0 = xmin`, not the cell
midpoint `1/4`, so the first pixel coordinate is not strictly inside the
extent. -/
theorem linspace_first_pixel_not_midpoint :
    linspace 0 1 2 0 ≠ 0 + ((0 : ℚ) + 1/2) * (1 - 0) / 2 ∧ linspace 0 1 2 0 = 0 := by
  norm_num [linspace]

/-- Claim C2 (amended): for `num ≥ 2` the coordinate of pixel `i` produced by
`np.linspace` is `xmin + i * (xmax - xmin) / (num - 1)`; in particular the
first and last coordinates are exactly at `xmin` and `xmax`, the boundary of
the extent, not strictly inside it. -/
theorem linspace_pixel_coordinates (a b : ℚ) (num : ℕ) (hn : 2 ≤ num) (i : ℕ) :
    linspace a b num i = a + (i : ℚ) * (b - a) / ((num : ℚ) - 1) ∧
    linspace a b num 0 = a ∧ linspace a b num (num - 1) = b := by
  have h1 : ¬ num ≤ 1 := by omega
  have hge : (2 : ℚ) ≤ (num : ℚ) := by exact_mod_cast hn
  have hne : ((num : ℚ) - 1) ≠ 0 := by linarith
  refine ⟨by rw [linspace, if_neg h1], by rw [linspace, if_neg h1]; ring, ?_⟩
  rw [linspace, if_neg h1]
  have hcast : ((num - 1 : ℕ) : ℚ) = (num : ℚ) - 1 := by
    have h2 : 1 ≤ num := by omega
    push_cast [h2]
    ring
  rw [hcast]
  field_simp

/-- Claim C2, witness: the amended pixel-coordinate formula applied with
extent `(0, 1)` and 5 pixels at index 2. -/
theorem linspace_pixel_coordinates_witness :
    2 ≤ 5 ∧
    (linspace 0 1 5 2 = 0 + ((2 : ℕ) : ℚ) * (1 - 0) / (((5 : ℕ) : ℚ) - 1) ∧
      linspace 0 1 5 0 = 0 ∧ linspace 0 1 5 (5 - 1) = 1) :=
  ⟨by norm_num, linspace_pixel_coordinates 0 1 5 (by norm_num) 2⟩

/-- Claim C3, counterexample: the degenerate extent `(5, 5, 0, 10)` passes the
input validation of `_init_image_size` without any error — it is accepted
unchanged, so no `InvalidExtent` failure is raised at call time. -/
theorem init_image_size_accepts_degenerate :
    init_image_size (some [5, 5, 0, 10]) none [] = .ok (5, 5, 0, 10) := by
  rfl

/-- Claim C3 (amended): `_init_image_size` validates only that a supplied
extent has exactly 4 entries (raising `ValueError` otherwise); every length-4
extent, degenerate or not, is accepted unchanged, and no resolution
validation is performed there. -/
theorem init_image_size_length_check (e : List ℚ) (size : Option ℚ)
    (xyz : List (ℚ × ℚ)) (h4 : e.length = 4) :
    init_image_size (some e) size xyz =
      .ok (e.getD 0 0, e.getD 1 0, e.getD 2 0, e.getD 3 0) := by
  simp [init_image_size, h4]

/-- Claim C3, witness: the length-4 extent `(0, 1, 2, 3)` is accepted even
with a size and particle data also present. -/
theorem init_image_size_length_check_witness :
    ([0, 1, 2, 3] : List ℚ).length = 4 ∧
    init_image_size (some [0, 1, 2, 3]) (some 7) [(9, 9)] = .ok (0, 1, 2, 3) :=
  ⟨by rfl, init_image_size_length_check [0, 1, 2, 3] (some 7) [(9, 9)] (by rfl)⟩

/-- Claim C4, counterexample: with both particles at `x = 1`, the extent
derived from the coordinate min/max is `(1, 1, 2, 3)`, which violates the
Extent invariant `xmin < xmax`. -/
theorem derived_extent_violates_invariant :
    init_image_size none none [(1, 2), (1, 3)] = .ok (1, 1, 2, 3) ∧
    ¬ ((1 : ℚ) < 1) := by
  exact ⟨rfl, by norm_num⟩

/-- For any starting points `y ≤ z`, folding `min` stays below folding
`max` over the same list. -/
lemma foldl_min_le_foldl_max (xs : List ℚ) :
    ∀ y z : ℚ, y ≤ z → xs.foldl min y ≤ xs.foldl max z := by
  induction xs with
  | nil => intro y z h; simpa using h
  | cons a as ih =>
      intro y z h
      exact ih (min y a) (max z a)
        (le_trans (min_le_left y a) (le_trans h (le_max_left z a)))

/-- The min of a nonempty collection is at most its max. -/
lemma listMin_le_listMax (x : ℚ) (xs : List ℚ) : listMin x xs ≤ listMax x xs :=
  foldl_min_le_foldl_max xs x x le_rfl

/-- Claim C4 (amended): extents derived from particle coordinate data satisfy
only the weak invariant `xmin ≤ xmax` and `ymin ≤ ymax`; strict inequality can
fail, for example when all particles share an x-coordinate. -/
theorem derived_extent_weak_invariant (p : ℚ × ℚ) (ps : List (ℚ × ℚ))
    (x0 x1 y0 y1 : ℚ)
    (hok : init_image_size none none (p :: ps) = .ok (x0, x1, y0, y1)) :
    x0 ≤ x1 ∧ y0 ≤ y1 := by
  simp only [init_image_size, Except.ok.injEq, Prod.mk.injEq] at hok
  obtain ⟨h0, h1, h2, h3⟩ := hok
  subst h0 h1 h2 h3
  exact ⟨listMin_le_listMax _ _, listMin_le_listMax _ _⟩

/-- Claim C4, witness: the weak invariant at the three particles
`(0,5), (2,7), (1,6)`, whose derived extent is `(0, 2, 5, 7)`. -/
theorem derived_extent_weak_invariant_witness :
    init_image_size none none [(0, 5), (2, 7), (1, 6)] = .ok (0, 2, 5, 7) ∧
    ((0 : ℚ) ≤ 2 ∧ (5 : ℚ) ≤ 7) :=
  ⟨by rfl, derived_extent_weak_invariant (0, 5) [(2, 7), (1, 6)] 0 2 5 7 (by rfl)⟩

/-- A particle with non-positive smoothing length contributes zero at any
pixel. -/
lemma contrib_of_nonpos (W : ℚ → ℚ) (p : SPHParticle) (px py : ℚ)
    (hp : p.h ≤ 0) : contrib W p px py = 0 := by
  simp [contrib, hp]

/-- Removing a non-positive-smoothing-length particle does not change the
accumulated value. -/
lemma accumValue_erase_nonpos (W : ℚ → ℚ) (ps₁ ps₂ : List SPHParticle)
    (p : SPHParticle) (px py : ℚ) (hp : p.h ≤ 0) :
    accumValue W (ps₁ ++ p :: ps₂) px py = accumValue W (ps₁ ++ ps₂) px py := by
  simp [accumValue, contrib_of_nonpos W p px py hp]

/-- Removing a non-positive-smoothing-length particle does not change the
accumulated weight. -/
lemma accumWeight_erase_nonpos (W : ℚ → ℚ) (ps₁ ps₂ : List SPHParticle)
    (p : SPHParticle) (px py : ℚ) (hp : p.h ≤ 0) :
    accumWeight W (ps₁ ++ p :: ps₂) px py = accumWeight W (ps₁ ++ ps₂) px py := by
  simp [accumWeight, contrib_of_nonpos W p px py hp]

/-- Claim C5: a particle whose smoothing length is not positive contributes
zero at every pixel center, and the interpolated grid with that particle
present equals the grid with it removed, at every cell and in both
normalization modes — no error is raised on its account. -/
theorem nonpos_smoothing_length_excluded (W : ℚ → ℚ)
    (ps₁ ps₂ : List SPHParticle) (p : SPHParticle)
    (xmin xmax ymin ymax : ℚ) (npixx npixy : ℕ) (normalize : Bool) (i j : ℕ)
    (hp : p.h ≤ 0) :
    contrib W p (pixelCenter xmin xmax npixx i) (pixelCenter ymin ymax npixy j) = 0 ∧
    scalar_interpolation W (ps₁ ++ p :: ps₂) xmin xmax ymin ymax npixx npixy
        normalize i j =
      scalar_interpolation W (ps₁ ++ ps₂) xmin xmax ymin ymax npixx npixy
        normalize i j := by
  refine ⟨contrib_of_nonpos W p _ _ hp, ?_⟩
  simp only [scalar_interpolation]
  rw [accumValue_erase_nonpos W ps₁ ps₂ p _ _ hp,
    accumWeight_erase_nonpos W ps₁ ps₂ p _ _ hp]

/-- Claim C5, witness: a particle with smoothing length `-1` inserted among
two active particles leaves the normalized one-pixel grid over `(0,1)×(0,1)`
untouched. -/
theorem nonpos_smoothing_length_excluded_witness :
    (SPHParticle.mk 0 0 (-1) 1 5).h ≤ 0 ∧
    (contrib sampleKernel (SPHParticle.mk 0 0 (-1) 1 5)
        (pixelCenter 0 1 1 0) (pixelCenter 0 1 1 0) = 0 ∧
      scalar_interpolation sampleKernel
          ([SPHParticle.mk (1/2) (1/2) 10 2 7] ++
            SPHParticle.mk 0 0 (-1) 1 5 :: [SPHParticle.mk (1/4) (1/4) 10 3 7])
          0 1 0 1 1 1 true 0 0 =
        scalar_interpolation sampleKernel
          ([SPHParticle.mk (1/2) (1/2) 10 2 7] ++ [SPHParticle.mk (1/4) (1/4) 10 3 7])
          0 1 0 1 1 1 true 0 0) :=
  ⟨by norm_num,
    nonpos_smoothing_length_excluded sampleKernel
      [SPHParticle.mk (1/2) (1/2) 10 2 7] [SPHParticle.mk (1/4) (1/4) 10 3 7]
      (SPHParticle.mk 0 0 (-1) 1 5) 0 1 0 1 1 1 true 0 0 (by norm_num)⟩

/-- When every particle carries the same field value `v`, the accumulated
value is `v` times the accumulated weight. -/
lemma accumValue_const_field (W : ℚ → ℚ) (ps : List SPHParticle) (px py v : ℚ)
    (hv : ∀ p ∈ ps, p.value = v) :
    accumValue W ps px py = v * accumWeight W ps px py := by
  induction ps with
  | nil => simp [accumValue, accumWeight]
  | cons a as ih =>
      have ha : a.value = v := hv a (by simp)
      have ih2 := ih (fun p hp => hv p (by simp [hp]))
      simp only [accumValue, accumWeight, List.map_cons, List.sum_cons] at ih2 ⊢
      rw [ha, ih2]
      ring

/-- Claim C7: interpolating a constant scalar field of value `v` with
normalization on yields exactly `v` at every grid cell whose accumulated
weight is nonzero (full particle coverage), independently of how the
particles are placed. -/
theorem constant_field_normalized_interpolation (W : ℚ → ℚ)
    (ps : List SPHParticle) (xmin xmax ymin ymax : ℚ) (npixx npixy : ℕ)
    (v : ℚ) (i j : ℕ) (hv : ∀ p ∈ ps, p.value = v)
    (hcov : accumWeight W ps (pixelCenter xmin xmax npixx i)
        (pixelCenter ymin ymax npixy j) ≠ 0) :
    scalar_interpolation W ps xmin xmax ymin ymax npixx npixy true i j = v := by
  simp only [scalar_interpolation, if_pos rfl, if_neg hcov,
    accumValue_const_field W ps _ _ v hv]
  exact mul_div_cancel_right₀ v hcov

/-- Claim C7, witness: one particle of weight 2 at the center of a one-pixel
grid over `(0,1)×(0,1)` carrying the constant field value 7 renders to
exactly 7. -/
theorem constant_field_normalized_interpolation_witness :
    (∀ p ∈ [SPHParticle.mk (1/2) (1/2) 10 2 7], p.value = 7) ∧
    accumWeight sampleKernel [SPHParticle.mk (1/2) (1/2) 10 2 7]
        (pixelCenter 0 1 1 0) (pixelCenter 0 1 1 0) ≠ 0 ∧
    scalar_interpolation sampleKernel [SPHParticle.mk (1/2) (1/2) 10 2 7]
        0 1 0 1 1 1 true 0 0 = 7 := by
  refine ⟨by simp, by norm_num [accumWeight, contrib, qsq, sampleKernel, pixelCenter], ?_⟩
  exact constant_field_normalized_interpolation sampleKernel
    [SPHParticle.mk (1/2) (1/2) 10 2 7] 0 1 0 1 1 1 7 0 0 (by simp)
    (by norm_num [accumWeight, contrib, qsq, sampleKernel, pixelCenter])

/-- Claim C8: when a center value is supplied to `get_extent_from_percentile`,
the midpoint of the corresponding interval of the returned extent equals that
center exactly, for every data array, whether or not the symmetric edge
padding is also applied, and independently of the other axis's centering. -/
theorem get_extent_center_on_midpoint (sx sy : List ℚ) (perc cx cy : ℚ)
    (ef : Option ℚ) :
    (∀ yco, ((get_extent_from_percentile sx sy perc (some cx) yco ef).1 +
        (get_extent_from_percentile sx sy perc (some cx) yco ef).2.1) / 2 = cx) ∧
    (∀ xco, ((get_extent_from_percentile sx sy perc xco (some cy) ef).2.2.1 +
        (get_extent_from_percentile sx sy perc xco (some cy) ef).2.2.2) / 2 = cy) := by
  constructor
  · intro yco
    cases ef <;> cases yco <;> simp [get_extent_from_percentile] <;> ring
  · intro xco
    cases ef <;> cases xco <;> simp [get_extent_from_percentile] <;> ring

/-- A key belonging to no options group survives the options-group scan of
`Visualization.__init__`. -/
lemma mem_popGroupKeys (groups : List (List String)) (kwargs : List (String × ℚ))
    (k : String) (v : ℚ) (hk : (k, v) ∈ kwargs)
    (hg : ∀ g ∈ groups, k ∉ g) : (k, v) ∈ popGroupKeys groups kwargs := by
  induction groups generalizing kwargs with
  | nil => simpa [popGroupKeys] using hk
  | cons g gs ih =>
      have hmem : (k, v) ∈ kwargs.filter (fun p => !(decide (p.1 ∈ g))) :=
        List.mem_filter.mpr ⟨hk, by simp [hg g (by simp)]⟩
      have hstep : popGroupKeys (g :: gs) kwargs =
          popGroupKeys gs (kwargs.filter (fun p => !(decide (p.1 ∈ g)))) := rfl
      rw [hstep]
      exact ih _ hmem (fun g2 hg2 => hg g2 (by simp [hg2]))

/-- Claim C10: every keyword argument whose key is a field of no options
group and is none of the recognized special keys is reported by the
constructor with a `UserWarning` naming that key; the constructor continues
(the kwargs handling is total, so an unrecognized option never raises). -/
theorem unknown_kwarg_warned (groups : List (List String))
    (kwargs : List (String × ℚ)) (k : String) (v : ℚ)
    (hk : (k, v) ∈ kwargs) (hg : ∀ g ∈ groups, k ∉ g)
    (hs : k ∉ specialKeys) :
    ("Unknown keyword argument: " ++ k) ∈ initWarnings groups kwargs := by
  have h1 : (k, v) ∈ popGroupKeys groups kwargs :=
    mem_popGroupKeys groups kwargs k v hk hg
  have h2 : (k, v) ∈ (popGroupKeys groups kwargs).filter
      (fun p => !(decide (p.1 ∈ specialKeys))) :=
    List.mem_filter.mpr ⟨h1, by simpa using hs⟩
  exact List.mem_map.mpr ⟨(k, v), h2, rfl⟩

/-- Claim C10, witness: the key `foo`, not a field of the one options group
`[colormap]` and not a special key, is warned about. -/
theorem unknown_kwarg_warned_witness :
    ("foo", (2 : ℚ)) ∈ [("colormap", (1 : ℚ)), ("foo", (2 : ℚ))] ∧
    (∀ g ∈ [["colormap"]], "foo" ∉ g) ∧
    "foo" ∉ specialKeys ∧
    ("Unknown keyword argument: " ++ "foo") ∈
      initWarnings [["colormap"]] [("colormap", (1 : ℚ)), ("foo", (2 : ℚ))] :=
  ⟨by simp, by simp, by simp [specialKeys],
    unknown_kwarg_warned [["colormap"]] [("colormap", 1), ("foo", 2)] "foo" 2
      (by simp) (by simp) (by simp [specialKeys])⟩
